import Mathlib

/-!
# Verification of the jackett-sync reconciliation core

Shallow embedding of `src/services/service.ts` and `src/main.ts` of
terminaate/jackett-sync-ts, together with the data model they operate on,
and proofs of the specification's claims about them.

Category collections are embedded as `List Nat` (JS arrays of numbers);
in-place mutation of a collection is embedded as explicit state passing:
a function that mutates an array argument becomes a function returning the
new list. Fallible control flow (`try`/`catch` around awaited promises)
is embedded with `Except`. The global `Config.indexSpecificRules` table is
threaded as an explicit `rules` parameter; the consumer-specific
`Indexer.compare` identity check is threaded as an explicit function
parameter `cmp`.
-/

set_option autoImplicit false

namespace JackettSync

/-- Modelled from the spec: the consumer selector of an override rule is
one of `ALL` or a concrete consumer application name (`models/indexSpecificRule.ts`
is not part of the provided sources; §3 gives `targetSelector: one-of {ALL, <consumer-name>}`,
and `main.ts` instantiates the consumers Sonarr, Radarr, Lidarr, Readarr). -/
inductive Services where
  | ALL
  | Sonarr
  | Radarr
  | Lidarr
  | Readarr
deriving DecidableEq, Repr

/-- Modelled from the spec: an override rule (`OverrideRule`, §3):
a consumer selector, an indexer identity, and an optional category /
anime category to force into consideration. Field names follow the use
sites in `service.ts` (`indexSpecificRule.service`, `.indexerId`,
`.category`, `.animeCategory`). -/
structure IndexSpecificRule where
  service : Services
  indexerId : Nat
  category : Option Nat
  animeCategory : Option Nat
deriving DecidableEq, Repr

/-- Modelled from the spec: a source indexer (`SourceIndexer`, §3):
`{ id, name, categories }`; only `id` and `categories` are consulted by the
reconciliation core, the remaining identity-relevant payload is abstracted
by the comparison parameter `cmp` below. -/
structure JackettIndexer where
  id : Nat
  name : String
  categories : List Nat
deriving DecidableEq, Repr

/-- Modelled from the spec: a consumer-side indexer record (`ConsumerIndexer`, §3):
`{ id, appId, categories }` where `id` is the join key with the source
catalog (possibly missing on malformed records, hence `Option`, matching the
`notEmpty` filtering in `checkDifferences`) and `appId` is the consumer-local
identifier used to address update calls. -/
structure Indexer where
  id : Option Nat
  appId : Option Nat
  categories : List Nat
deriving DecidableEq, Repr

/-- The consumer-side state a `Service` instance holds when the diff runs:
its name (`serviceName`), its wanted categories (`this.categories`) and its
fetched indexer list (`this.indexers`), from the fields of the abstract
class `Service` in `service.ts`. -/
structure Service where
  serviceName : Services
  categories : List Nat
  indexers : List Indexer
deriving Repr

/-- Modelled from the spec: `arrayEquals` from `helper.ts` (not part of the
provided sources). §3: "Category sets are unordered for equality purposes —
two category sets are equivalent iff they contain the same elements,
regardless of insertion order." -/
def arrayEquals (a b : List Nat) : Bool :=
  a.all (fun x => b.contains x) && b.all (fun x => a.contains x)

/-- The selector/identity guard shared by `doesIndexerSpecificRuleApply`,
`indexerSpecificConfiguration` and `undoIndexerSpecificConfiguration`:
the rule's service is `ALL` or the current service, and the rule names the
given indexer id. -/
def ruleMatches (serviceName : Services) (indexerId : Nat)
    (r : IndexSpecificRule) : Bool :=
  (r.service == Services.ALL || r.service == serviceName) &&
    indexerId == r.indexerId

/-- `Service.doesIndexerSpecificRuleApply` (service.ts:167-176): some rule in
the table matches the service selector and the indexer id (`findIndex !== -1`). -/
def doesIndexerSpecificRuleApply (rules : List IndexSpecificRule)
    (serviceName : Services) (indexer : JackettIndexer) : Bool :=
  rules.any (fun r => ruleMatches serviceName indexer.id r)

/-- One loop iteration of `indexerSpecificConfiguration` (service.ts:183-196)
on the pair (supportedCategories, animeSupportedCategories): a matching
rule's category (resp. anime category) is appended when non-null and not
already present. -/
def applyRuleStep (serviceName : Services) (indexerId : Nat)
    (st : List Nat × List Nat) (r : IndexSpecificRule) : List Nat × List Nat :=
  if ruleMatches serviceName indexerId r then
    (match r.category with
      | some c => if st.1.contains c then st.1 else st.1 ++ [c]
      | none => st.1,
     match r.animeCategory with
      | some c => if st.2.contains c then st.2 else st.2 ++ [c]
      | none => st.2)
  else st

/-- One loop iteration of `undoIndexerSpecificConfiguration`
(service.ts:204-217): a matching rule's category (resp. anime category) is
removed at its first index (`splice(indexOf, 1)`) when non-null and present. -/
def undoRuleStep (serviceName : Services) (indexerId : Nat)
    (st : List Nat × List Nat) (r : IndexSpecificRule) : List Nat × List Nat :=
  if ruleMatches serviceName indexerId r then
    (match r.category with
      | some c => if st.1.contains c then st.1.erase c else st.1
      | none => st.1,
     match r.animeCategory with
      | some c => if st.2.contains c then st.2.erase c else st.2
      | none => st.2)
  else st

/-- `Service.indexerSpecificConfiguration` (service.ts:178-197): `forEach`
over the rule table, mutating the two category collections in place; embedded
as a left fold returning the final (supportedCategories,
animeSupportedCategories) pair. -/
def indexerSpecificConfiguration (rules : List IndexSpecificRule)
    (serviceName : Services) (indexer : JackettIndexer)
    (supportedCategories animeSupportedCategories : List Nat) :
    List Nat × List Nat :=
  rules.foldl (applyRuleStep serviceName indexer.id)
    (supportedCategories, animeSupportedCategories)

/-- `Service.undoIndexerSpecificConfiguration` (service.ts:199-218): the
reversing fold. -/
def undoIndexerSpecificConfiguration (rules : List IndexSpecificRule)
    (serviceName : Services) (indexer : JackettIndexer)
    (supportedCategories animeSupportedCategories : List Nat) :
    List Nat × List Nat :=
  rules.foldl (undoRuleStep serviceName indexer.id)
    (supportedCategories, animeSupportedCategories)

/-- `Service.shouldAdd` (service.ts:151-153): some indexer category is among
the service's wanted categories, or an indexer-specific rule applies. -/
def shouldAdd (rules : List IndexSpecificRule) (svc : Service)
    (indexer : JackettIndexer) : Bool :=
  indexer.categories.any (fun category => svc.categories.contains category) ||
    doesIndexerSpecificRuleApply rules svc.serviceName indexer

/-- `Service.containsAllWantedCategories` (service.ts:159-165), decision
value: the wanted categories available on the indexer are computed, the
existing record's categories are run through override reversal (the code
mutates `current.categories` in place; see `containsAllWantedCategoriesRun`
for the state effect), and the result is compared with `arrayEquals`. -/
def containsAllWantedCategories (rules : List IndexSpecificRule)
    (svc : Service) (current : Indexer) (indexer : JackettIndexer) : Bool :=
  let availableCategories := svc.categories.filter
    (fun id => indexer.categories.contains id)
  arrayEquals
    (undoIndexerSpecificConfiguration rules svc.serviceName indexer
      current.categories []).1
    availableCategories

/-- `Service.containsAllWantedCategories` with its state effect: the call
`undoIndexerSpecificConfiguration(indexer, current.categories, [])` splices
matching rule categories out of `current.categories` in place, so the check
returns both its Boolean decision and the existing record as left in memory. -/
def containsAllWantedCategoriesRun (rules : List IndexSpecificRule)
    (svc : Service) (current : Indexer) (indexer : JackettIndexer) :
    Bool × Indexer :=
  let availableCategories := svc.categories.filter
    (fun id => indexer.categories.contains id)
  let st := undoIndexerSpecificConfiguration rules svc.serviceName indexer
    current.categories []
  (arrayEquals st.1 availableCategories, { current with categories := st.1 })

/-- `Service.shouldUpdate` (service.ts:155-157): the consumer-specific
identity comparison `current.compare(indexer)` is threaded as the function
parameter `cmp` (its implementation lives in the per-consumer model classes,
outside the provided sources). -/
def shouldUpdate (rules : List IndexSpecificRule)
    (cmp : Indexer → JackettIndexer → Bool) (svc : Service)
    (current : Indexer) (indexer : JackettIndexer) : Bool :=
  !(cmp current indexer) || !(containsAllWantedCategories rules svc current indexer)

/-- Result of `Service.checkDifferences` (service.ts:118-149): the `add` and
`update` lists it returns, plus the `notInJackett` id list it reports as
orphans via `console.warn`. -/
structure DiffResult where
  add : List JackettIndexer
  update : List JackettIndexer
  notInJackett : List Nat
deriving Repr

/-- `Service.checkDifferences` (service.ts:118-149). `idList` is the source
catalog's ids, `serviceIdList` the consumer's non-empty ids
(`filter(notEmpty)` becomes `filterMap`); ids missing on the consumer side
are mapped through `find` + `shouldAdd` (the `map(...).filter(notEmpty)`
pattern becomes `filterMap`), common ids through `find` + `shouldUpdate`,
and consumer ids absent from the source are reported, never mutated. -/
def checkDifferences (rules : List IndexSpecificRule)
    (cmp : Indexer → JackettIndexer → Bool) (svc : Service)
    (jackettIndexers : List JackettIndexer) : DiffResult :=
  let idList := jackettIndexers.map (fun el => el.id)
  let serviceIdList := svc.indexers.filterMap (fun indexer => indexer.id)
  let diff := idList.filter (fun id => !(serviceIdList.contains id))
  let shouldBeAddedIndexers := diff.filterMap (fun indexersId =>
    (jackettIndexers.find? (fun indexer => indexer.id == indexersId)).bind
      (fun indexer =>
        if shouldAdd rules svc indexer then some indexer else none))
  let same := idList.filter (fun id => serviceIdList.contains id)
  let shouldBeUpdatedIndexers := same.filterMap (fun indexersId =>
    (jackettIndexers.find? (fun indexer => indexer.id == indexersId)).bind
      (fun jacketIndexer =>
        (svc.indexers.find? (fun indexer => indexer.id == some indexersId)).bind
          (fun existingIndexer =>
            if shouldUpdate rules cmp svc existingIndexer jacketIndexer then
              some jacketIndexer
            else none)))
  let notInJackett := serviceIdList.filter (fun id => !(idList.contains id))
  { add := shouldBeAddedIndexers
    update := shouldBeUpdatedIndexers
    notInJackett := notInJackett }

/-- The effect of one matching rule's category clause on a single category
collection: append when not already present (the guard on service.ts:186-189). -/
def addCat (c : Nat) (l : List Nat) : List Nat :=
  if l.contains c then l else l ++ [c]

/-- The effect of one matching rule's category clause during reversal:
`splice(indexOf(c), 1)` when present (the guard on service.ts:207-210),
i.e. removal of the first occurrence. -/
def removeCat (c : Nat) (l : List Nat) : List Nat :=
  if l.contains c then l.erase c else l

/-- One loop iteration of `indexerSpecificConfiguration` restricted to a
single category collection, parametrised by which optional rule field
(`category` or `animeCategory`) drives it. The two collections evolve
independently, so the pair fold `applyRuleStep` factors through this. -/
def applyFieldStep (f : IndexSpecificRule → Option Nat) (serviceName : Services)
    (indexerId : Nat) (l : List Nat) (r : IndexSpecificRule) : List Nat :=
  if ruleMatches serviceName indexerId r then
    match f r with
    | some c => addCat c l
    | none => l
  else l

/-- One loop iteration of `undoIndexerSpecificConfiguration` restricted to a
single category collection. -/
def undoFieldStep (f : IndexSpecificRule → Option Nat) (serviceName : Services)
    (indexerId : Nat) (l : List Nat) (r : IndexSpecificRule) : List Nat :=
  if ruleMatches serviceName indexerId r then
    match f r with
    | some c => removeCat c l
    | none => l
  else l

/-- `indexerSpecificConfiguration` on one category collection. -/
def applyField (f : IndexSpecificRule → Option Nat) (serviceName : Services)
    (indexerId : Nat) (rules : List IndexSpecificRule) (l : List Nat) : List Nat :=
  rules.foldl (applyFieldStep f serviceName indexerId) l

/-- `undoIndexerSpecificConfiguration` on one category collection. -/
def undoField (f : IndexSpecificRule → Option Nat) (serviceName : Services)
    (indexerId : Nat) (rules : List IndexSpecificRule) (l : List Nat) : List Nat :=
  rules.foldl (undoFieldStep f serviceName indexerId) l

/-- The categories (under the field selector `f`) named by the rules of the
table that match the given service and indexer id. -/
def ruleCats (f : IndexSpecificRule → Option Nat) (serviceName : Services)
    (indexerId : Nat) (rules : List IndexSpecificRule) : List Nat :=
  rules.filterMap (fun r => if ruleMatches serviceName indexerId r then f r else none)

/-- The decision taken by `checkDifferences` for a source indexer whose id is
already on the consumer: look up the existing record (service.ts:135) and ask
`shouldUpdate` (service.ts:136); ids with no existing record are never common
ids, so the `none` branch is unreachable there. -/
def updateDecision (rules : List IndexSpecificRule)
    (cmp : Indexer → JackettIndexer → Bool) (svc : Service)
    (ix : JackettIndexer) : Bool :=
  match svc.indexers.find? (fun indexer => indexer.id == some ix.id) with
  | some existingIndexer => shouldUpdate rules cmp svc existingIndexer ix
  | none => false

/-- The per-update `appId` lookup of `Service.sync` (service.ts:63):
`this.indexers.find((existingIndexer) => existingIndexer.id === indexer.id)!.appId`.
The embedding keeps the `Option` returned by `find?` so that the non-null
assertion becomes a provable `isSome` obligation. -/
def syncUpdateLookup (svc : Service) (indexer : JackettIndexer) :
    Option Indexer :=
  svc.indexers.find? (fun existingIndexer => existingIndexer.id == some indexer.id)

/-- `Service.handleRequest` (service.ts:98-116): a settled create/update
response is mapped to a success log (`true`) and a rejection to an error log
(`false`); the `catch` swallows the error, so the embedded function is total
and never propagates a failure to the surrounding batch. -/
def handleRequest (response : Except String String) : Bool :=
  match response with
  | Except.ok _ => true
  | Except.error _ => false

/-- The outcome of one consumer's `sync` in `main.ts` (lines 44-60): the
three awaited steps (`validate`, `getIndexers`, `service.sync`) run in order
inside a `try`/`catch` that logs and returns, so the consumer's run yields
`true` exactly when all three steps succeed and never throws past itself. -/
def syncConsumer (validateResult : Except String String)
    (getIndexersResult : Except String (List Indexer))
    (syncResult : Except String Unit) : Bool :=
  match validateResult with
  | Except.error _ => false
  | Except.ok _ =>
    match getIndexersResult with
    | Except.error _ => false
    | Except.ok _ =>
      match syncResult with
      | Except.error _ => false
      | Except.ok _ => true

/-- The per-consumer inputs of one run of `start` in `main.ts`: the settled
results of that consumer's `validate`, `getIndexers` and `service.sync` calls. -/
structure ConsumerRun where
  validateResult : Except String String
  getIndexersResult : Except String (List Indexer)
  syncResult : Except String Unit

/-- An identity comparison that always reports a difference; sample data for
concrete witnesses. -/
def cmpFalse : Indexer → JackettIndexer → Bool := fun _ _ => false

/-- Sample rule: force category 5030 for indexer 1 on every consumer. -/
def ruleAll5030 : IndexSpecificRule :=
  { service := Services.ALL, indexerId := 1, category := some 5030,
    animeCategory := none }

/-- Sample source catalog with ids 1, 2, 3. -/
def exCatalog : List JackettIndexer :=
  [{ id := 1, name := "a", categories := [2000] },
   { id := 2, name := "b", categories := [5000] },
   { id := 3, name := "c", categories := [9999] }]

/-- Sample consumer wanting 2000 and 5000 and holding only id 2. -/
def exService : Service :=
  { serviceName := Services.Sonarr, categories := [2000, 5000],
    indexers := [{ id := some 2, appId := some 7, categories := [5000] }] }

/-- Sample consumer wanting 2000 and holding nothing. -/
def svcNoIndexers : Service :=
  { serviceName := Services.Sonarr, categories := [2000], indexers := [] }

/-- Sample source indexer with no category overlap with `svcNoIndexers`. -/
def ixNoOverlap : JackettIndexer := { id := 1, name := "a", categories := [9999] }

/-- Sample consumer holding the orphan id 5. -/
def svcOrphan : Service :=
  { serviceName := Services.Sonarr, categories := [2000],
    indexers := [{ id := some 5, appId := some 7, categories := [2000] }] }

/-- Sample one-element catalog holding id 1. -/
def catalogOne : List JackettIndexer := [{ id := 1, name := "a", categories := [2000] }]

/-- Sample consumer holding id 1 under appId 7. -/
def svcApp7 : Service :=
  { serviceName := Services.Sonarr, categories := [2000],
    indexers := [{ id := some 1, appId := some 7, categories := [2000] }] }

/-- Sample source indexer with id 1. -/
def ixOne : JackettIndexer := { id := 1, name := "a", categories := [2000] }

/-- The outcome of `start` in `main.ts` (lines 9-42): either the process
exits with code 1 before any consumer is touched, or every consumer is
reconciled and each yields a logged success/failure outcome. -/
inductive RunOutcome where
  | fatalExit
  | completed (consumerOutcomes : List Bool)
deriving DecidableEq, Repr

/-- `start` in `main.ts` (lines 9-42): fetching the source catalog inside a
`try`/`catch` whose handler calls `process.exit(1)`, then a `Promise.all`
over the consumers, each wrapped in its own `try`/`catch` (and `sync` itself
catches everything), so one consumer's failure is logged and cannot reject a
sibling. -/
def start (fetchResult : Except String (List JackettIndexer))
    (runs : List ConsumerRun) : RunOutcome :=
  match fetchResult with
  | Except.error _ => RunOutcome.fatalExit
  | Except.ok _ =>
    RunOutcome.completed (runs.map (fun r =>
      syncConsumer r.validateResult r.getIndexersResult r.syncResult))

/-! ## Basic lemmas about the override-rule folds -/

theorem applyField_nil (f : IndexSpecificRule → Option Nat) (sn : Services)
    (iid : Nat) (l : List Nat) : applyField f sn iid [] l = l := rfl

theorem applyField_cons (f : IndexSpecificRule → Option Nat) (sn : Services)
    (iid : Nat) (r : IndexSpecificRule) (rules : List IndexSpecificRule)
    (l : List Nat) :
    applyField f sn iid (r :: rules) l =
      applyField f sn iid rules (applyFieldStep f sn iid l r) := rfl

theorem undoField_nil (f : IndexSpecificRule → Option Nat) (sn : Services)
    (iid : Nat) (l : List Nat) : undoField f sn iid [] l = l := rfl

theorem undoField_cons (f : IndexSpecificRule → Option Nat) (sn : Services)
    (iid : Nat) (r : IndexSpecificRule) (rules : List IndexSpecificRule)
    (l : List Nat) :
    undoField f sn iid (r :: rules) l =
      undoField f sn iid rules (undoFieldStep f sn iid l r) := rfl

theorem applyRuleStep_eq_pair (sn : Services) (iid : Nat)
    (st : List Nat × List Nat) (r : IndexSpecificRule) :
    applyRuleStep sn iid st r =
      (applyFieldStep (fun r => r.category) sn iid st.1 r,
       applyFieldStep (fun r => r.animeCategory) sn iid st.2 r) := by
  simp only [applyRuleStep, applyFieldStep, addCat]
  split <;> rfl

theorem undoRuleStep_eq_pair (sn : Services) (iid : Nat)
    (st : List Nat × List Nat) (r : IndexSpecificRule) :
    undoRuleStep sn iid st r =
      (undoFieldStep (fun r => r.category) sn iid st.1 r,
       undoFieldStep (fun r => r.animeCategory) sn iid st.2 r) := by
  simp only [undoRuleStep, undoFieldStep, removeCat]
  split <;> rfl

theorem foldl_applyRuleStep_pair (sn : Services) (iid : Nat) :
    ∀ (rules : List IndexSpecificRule) (a b : List Nat),
      rules.foldl (applyRuleStep sn iid) (a, b) =
        (applyField (fun r => r.category) sn iid rules a,
         applyField (fun r => r.animeCategory) sn iid rules b)
  | [], _, _ => rfl
  | r :: rules, a, b => by
    rw [List.foldl_cons, applyRuleStep_eq_pair,
      foldl_applyRuleStep_pair sn iid rules, applyField_cons, applyField_cons]

theorem foldl_undoRuleStep_pair (sn : Services) (iid : Nat) :
    ∀ (rules : List IndexSpecificRule) (a b : List Nat),
      rules.foldl (undoRuleStep sn iid) (a, b) =
        (undoField (fun r => r.category) sn iid rules a,
         undoField (fun r => r.animeCategory) sn iid rules b)
  | [], _, _ => rfl
  | r :: rules, a, b => by
    rw [List.foldl_cons, undoRuleStep_eq_pair,
      foldl_undoRuleStep_pair sn iid rules, undoField_cons, undoField_cons]

theorem indexerSpecificConfiguration_eq_pair (rules : List IndexSpecificRule)
    (sn : Services) (ix : JackettIndexer) (sc ac : List Nat) :
    indexerSpecificConfiguration rules sn ix sc ac =
      (applyField (fun r => r.category) sn ix.id rules sc,
       applyField (fun r => r.animeCategory) sn ix.id rules ac) :=
  foldl_applyRuleStep_pair sn ix.id rules sc ac

theorem undoIndexerSpecificConfiguration_eq_pair (rules : List IndexSpecificRule)
    (sn : Services) (ix : JackettIndexer) (sc ac : List Nat) :
    undoIndexerSpecificConfiguration rules sn ix sc ac =
      (undoField (fun r => r.category) sn ix.id rules sc,
       undoField (fun r => r.animeCategory) sn ix.id rules ac) :=
  foldl_undoRuleStep_pair sn ix.id rules sc ac

theorem mem_ruleCats {f : IndexSpecificRule → Option Nat} {sn : Services}
    {iid : Nat} {rules : List IndexSpecificRule} {c : Nat} :
    c ∈ ruleCats f sn iid rules ↔
      ∃ r ∈ rules, ruleMatches sn iid r = true ∧ f r = some c := by
  simp only [ruleCats, List.mem_filterMap, Option.ite_none_right_eq_some]

theorem removeCat_eq_erase (c : Nat) (l : List Nat) :
    removeCat c l = l.erase c := by
  unfold removeCat
  split
  · rfl
  · next h =>
    rw [List.erase_of_not_mem]
    simpa using h

/-! ## The apply/reverse fold on a fresh base collection -/

theorem ruleCats_subset_cons {f : IndexSpecificRule → Option Nat} {sn : Services}
    {iid : Nat} {r : IndexSpecificRule} {rules : List IndexSpecificRule} {c : Nat}
    (h : c ∈ ruleCats f sn iid rules) : c ∈ ruleCats f sn iid (r :: rules) := by
  obtain ⟨r', hr', hm, hf⟩ := mem_ruleCats.mp h
  exact mem_ruleCats.mpr ⟨r', List.mem_cons_of_mem _ hr', hm, hf⟩

theorem head_mem_ruleCats {f : IndexSpecificRule → Option Nat} {sn : Services}
    {iid : Nat} {r : IndexSpecificRule} {rules : List IndexSpecificRule} {c : Nat}
    (hm : ruleMatches sn iid r = true) (hf : f r = some c) :
    c ∈ ruleCats f sn iid (r :: rules) :=
  mem_ruleCats.mpr ⟨r, List.mem_cons_self r rules, hm, hf⟩

theorem applyField_append (f : IndexSpecificRule → Option Nat) (sn : Services)
    (iid : Nat) (C : List Nat) :
    ∀ (rules : List IndexSpecificRule),
      (∀ c ∈ ruleCats f sn iid rules, c ∉ C) →
      ∀ D, applyField f sn iid rules (C ++ D) = C ++ applyField f sn iid rules D := by
  intro rules
  induction rules with
  | nil => intro _ D; rfl
  | cons r rules ih =>
    intro hC D
    have hsub : ∀ c ∈ ruleCats f sn iid rules, c ∉ C :=
      fun c hc => hC c (ruleCats_subset_cons hc)
    rw [applyField_cons, applyField_cons]
    by_cases hm : ruleMatches sn iid r = true
    · cases hf : f r with
      | none =>
        simp only [applyFieldStep, hm, if_true, hf]
        exact ih hsub D
      | some c =>
        have hcC : c ∉ C := hC c (head_mem_ruleCats hm hf)
        simp only [applyFieldStep, hm, if_true, hf, addCat]
        by_cases hcD : c ∈ D
        · rw [if_pos (by simp [hcD]), if_pos (by simp [hcD])]
          exact ih hsub D
        · rw [if_neg (by simp [hcC, hcD]), if_neg (by simp [hcD]),
            List.append_assoc]
          exact ih hsub (D ++ [c])
    · simp only [applyFieldStep, hm, if_false]
      exact ih hsub D

theorem undoField_append (f : IndexSpecificRule → Option Nat) (sn : Services)
    (iid : Nat) (C : List Nat) :
    ∀ (rules : List IndexSpecificRule),
      (∀ c ∈ ruleCats f sn iid rules, c ∉ C) →
      ∀ D, undoField f sn iid rules (C ++ D) = C ++ undoField f sn iid rules D := by
  intro rules
  induction rules with
  | nil => intro _ D; rfl
  | cons r rules ih =>
    intro hC D
    have hsub : ∀ c ∈ ruleCats f sn iid rules, c ∉ C :=
      fun c hc => hC c (ruleCats_subset_cons hc)
    rw [undoField_cons, undoField_cons]
    by_cases hm : ruleMatches sn iid r = true
    · cases hf : f r with
      | none =>
        simp only [undoFieldStep, hm, if_true, hf]
        exact ih hsub D
      | some c =>
        have hcC : c ∉ C := hC c (head_mem_ruleCats hm hf)
        simp only [undoFieldStep, hm, if_true, hf, removeCat_eq_erase,
          List.erase_append_right D hcC]
        exact ih hsub (D.erase c)
    · simp only [undoFieldStep, hm, if_false]
      exact ih hsub D

theorem mem_addCat {c x : Nat} {l : List Nat} (h : x ∈ addCat c l) :
    x ∈ l ∨ x = c := by
  unfold addCat at h
  split at h
  · exact Or.inl h
  · rcases List.mem_append.mp h with h' | h'
    · exact Or.inl h'
    · exact Or.inr (List.mem_singleton.mp h')

theorem mem_addCat_of_mem {c x : Nat} {l : List Nat} (h : x ∈ l) :
    x ∈ addCat c l := by
  unfold addCat
  split
  · exact h
  · exact List.mem_append_left _ h

theorem self_mem_addCat (c : Nat) (l : List Nat) : c ∈ addCat c l := by
  unfold addCat
  split
  · next h => simpa using h
  · exact List.mem_append_right _ (List.mem_singleton.mpr rfl)

theorem mem_applyField_of_mem (f : IndexSpecificRule → Option Nat) (sn : Services)
    (iid : Nat) :
    ∀ (rules : List IndexSpecificRule) {l : List Nat} {x : Nat}, x ∈ l →
      x ∈ applyField f sn iid rules l := by
  intro rules
  induction rules with
  | nil => intro l x h; exact h
  | cons r rules ih =>
    intro l x h
    rw [applyField_cons]
    apply ih
    unfold applyFieldStep
    split
    · cases f r with
      | none => exact h
      | some c => exact mem_addCat_of_mem h
    · exact h

theorem mem_applyField (f : IndexSpecificRule → Option Nat) (sn : Services)
    (iid : Nat) :
    ∀ (rules : List IndexSpecificRule) {l : List Nat} {x : Nat},
      x ∈ applyField f sn iid rules l →
      x ∈ l ∨ x ∈ ruleCats f sn iid rules := by
  intro rules
  induction rules with
  | nil => intro l x h; exact Or.inl h
  | cons r rules ih =>
    intro l x h
    rw [applyField_cons] at h
    rcases ih h with h' | h'
    · unfold applyFieldStep at h'
      split at h'
      · next hm =>
        cases hf : f r with
        | none => rw [hf] at h'; exact Or.inl h'
        | some c =>
          rw [hf] at h'
          rcases mem_addCat h' with h'' | h''
          · exact Or.inl h''
          · exact Or.inr (h'' ▸ head_mem_ruleCats (by simpa using hm) hf)
      · exact Or.inl h'
    · exact Or.inr (ruleCats_subset_cons h')

theorem addCat_nodup {c : Nat} {l : List Nat} (h : l.Nodup) :
    (addCat c l).Nodup := by
  unfold addCat
  by_cases hc : l.contains c = true
  · rw [if_pos hc]; exact h
  · rw [if_neg hc]
    have hcl : c ∉ l := by simpa using hc
    simp [List.nodup_append, h, hcl]

theorem applyField_nodup (f : IndexSpecificRule → Option Nat) (sn : Services)
    (iid : Nat) :
    ∀ (rules : List IndexSpecificRule) {l : List Nat}, l.Nodup →
      (applyField f sn iid rules l).Nodup := by
  intro rules
  induction rules with
  | nil => intro l h; exact h
  | cons r rules ih =>
    intro l h
    rw [applyField_cons]
    apply ih
    unfold applyFieldStep
    split
    · cases f r with
      | none => exact h
      | some c => exact addCat_nodup h
    · exact h

theorem undoField_eq_nil (f : IndexSpecificRule → Option Nat) (sn : Services)
    (iid : Nat) :
    ∀ (rules : List IndexSpecificRule) (X : List Nat), X.Nodup →
      (∀ x ∈ X, x ∈ ruleCats f sn iid rules) →
      undoField f sn iid rules X = [] := by
  intro rules
  induction rules with
  | nil =>
    intro X _ hX
    have : X = [] := by
      cases X with
      | nil => rfl
      | cons a X => exact absurd (hX a (List.mem_cons_self a X)) (by simp [ruleCats])
    rw [this]; rfl
  | cons r rules ih =>
    intro X hnd hX
    rw [undoField_cons]
    by_cases hm : ruleMatches sn iid r = true
    · cases hf : f r with
      | none =>
        simp only [undoFieldStep, hm, if_true, hf]
        refine ih X hnd (fun x hx => ?_)
        obtain ⟨r', hr', hm', hf'⟩ := mem_ruleCats.mp (hX x hx)
        rcases List.mem_cons.mp hr' with rfl | hr'
        · rw [hf] at hf'; exact absurd hf' (by simp)
        · exact mem_ruleCats.mpr ⟨r', hr', hm', hf'⟩
      | some c =>
        simp only [undoFieldStep, hm, if_true, hf, removeCat_eq_erase]
        refine ih (X.erase c) (hnd.erase c) (fun x hx => ?_)
        have hxX : x ∈ X := List.mem_of_mem_erase hx
        have hxc : x ≠ c := by
          intro h
          rw [h] at hx
          exact hnd.not_mem_erase hx
        obtain ⟨r', hr', hm', hf'⟩ := mem_ruleCats.mp (hX x hxX)
        rcases List.mem_cons.mp hr' with rfl | hr'
        · rw [hf] at hf'
          exact absurd (Option.some.inj hf').symm hxc
        · exact mem_ruleCats.mpr ⟨r', hr', hm', hf'⟩
    · simp only [undoFieldStep, hm, if_false]
      refine ih X hnd (fun x hx => ?_)
      obtain ⟨r', hr', hm', hf'⟩ := mem_ruleCats.mp (hX x hx)
      rcases List.mem_cons.mp hr' with rfl | hr'
      · exact absurd hm' hm
      · exact mem_ruleCats.mpr ⟨r', hr', hm', hf'⟩

theorem undoField_applyField (f : IndexSpecificRule → Option Nat) (sn : Services)
    (iid : Nat) (rules : List IndexSpecificRule) (C : List Nat)
    (hC : ∀ c ∈ ruleCats f sn iid rules, c ∉ C) :
    undoField f sn iid rules (applyField f sn iid rules C) = C := by
  have h1 : applyField f sn iid rules C = C ++ applyField f sn iid rules [] := by
    have := applyField_append f sn iid C rules hC []
    simpa using this
  have h2 : (applyField f sn iid rules []).Nodup :=
    applyField_nodup f sn iid rules List.nodup_nil
  have h3 : ∀ x ∈ applyField f sn iid rules [], x ∈ ruleCats f sn iid rules := by
    intro x hx
    rcases mem_applyField f sn iid rules hx with h | h
    · exact absurd h (List.not_mem_nil x)
    · exact h
  rw [h1, undoField_append f sn iid C rules hC,
    undoField_eq_nil f sn iid rules _ h2 h3, List.append_nil]

/-! ## Claim C1: apply/reverse round trip -/

/-- **C1 (counterexample)**: applying the override rules and then reversing
them does not always restore the original collections. With the single rule
`{service: ALL, indexerId: 1, category: 5030}` and base category collection
`[5030]` (the rule's category already present), `indexerSpecificConfiguration`
skips the guarded push, but `undoIndexerSpecificConfiguration` still splices
the category out, returning `([], [])` instead of `([5030], [])`. -/
theorem apply_reverse_not_inverse_on_5030 :
    undoIndexerSpecificConfiguration
      [{ service := Services.ALL, indexerId := 1, category := some 5030,
         animeCategory := none }]
      Services.Sonarr { id := 1, name := "ix", categories := [2000] }
      (indexerSpecificConfiguration
        [{ service := Services.ALL, indexerId := 1, category := some 5030,
           animeCategory := none }]
        Services.Sonarr { id := 1, name := "ix", categories := [2000] }
        [5030] []).1
      (indexerSpecificConfiguration
        [{ service := Services.ALL, indexerId := 1, category := some 5030,
           animeCategory := none }]
        Services.Sonarr { id := 1, name := "ix", categories := [2000] }
        [5030] []).2 ≠ ([5030], []) := by
  decide

/-- **C1 (amended)**: applying the override rules via
`indexerSpecificConfiguration` and then reversing them via
`undoIndexerSpecificConfiguration` with the same rule table, consumer and
indexer restores the original collections, provided no matching rule's
category is already present in the base category collection and no matching
rule's anime category is already present in the base anime collection. -/
theorem apply_then_reverse_roundtrip (rules : List IndexSpecificRule)
    (sn : Services) (ix : JackettIndexer) (C A : List Nat)
    (hC : ∀ r ∈ rules, ruleMatches sn ix.id r = true →
      ∀ c, r.category = some c → c ∉ C)
    (hA : ∀ r ∈ rules, ruleMatches sn ix.id r = true →
      ∀ c, r.animeCategory = some c → c ∉ A) :
    undoIndexerSpecificConfiguration rules sn ix
      (indexerSpecificConfiguration rules sn ix C A).1
      (indexerSpecificConfiguration rules sn ix C A).2 = (C, A) := by
  have hC' : ∀ c ∈ ruleCats (fun r => r.category) sn ix.id rules, c ∉ C := by
    intro c hc
    obtain ⟨r, hr, hm, hf⟩ := mem_ruleCats.mp hc
    exact hC r hr hm c hf
  have hA' : ∀ c ∈ ruleCats (fun r => r.animeCategory) sn ix.id rules, c ∉ A := by
    intro c hc
    obtain ⟨r, hr, hm, hf⟩ := mem_ruleCats.mp hc
    exact hA r hr hm c hf
  rw [indexerSpecificConfiguration_eq_pair, undoIndexerSpecificConfiguration_eq_pair]
  exact Prod.ext (undoField_applyField _ sn ix.id rules C hC')
    (undoField_applyField _ sn ix.id rules A hA')

/-- Witness for `apply_then_reverse_roundtrip`: the rule
`{service: ALL, indexerId: 1, category: 5030, animeCategory: 5070}` applied
to base collections `([2000], [])` (which do not already contain 5030/5070)
and reversed again restores `([2000], [])`. -/
theorem apply_then_reverse_roundtrip_witness :
    undoIndexerSpecificConfiguration
      [{ service := Services.ALL, indexerId := 1, category := some 5030,
         animeCategory := some 5070 }]
      Services.Sonarr { id := 1, name := "ix", categories := [2000] }
      (indexerSpecificConfiguration
        [{ service := Services.ALL, indexerId := 1, category := some 5030,
           animeCategory := some 5070 }]
        Services.Sonarr { id := 1, name := "ix", categories := [2000] }
        [2000] []).1
      (indexerSpecificConfiguration
        [{ service := Services.ALL, indexerId := 1, category := some 5030,
           animeCategory := some 5070 }]
        Services.Sonarr { id := 1, name := "ix", categories := [2000] }
        [2000] []).2 = ([2000], []) :=
  apply_then_reverse_roundtrip _ _ _ [2000] []
    (by decide) (by decide)

/-! ## Claim C7: idempotence of rule application -/

theorem addCat_of_mem {c : Nat} {l : List Nat} (h : c ∈ l) : addCat c l = l := by
  unfold addCat
  rw [if_pos (by simpa using h)]

theorem ruleCats_mem_applyField (f : IndexSpecificRule → Option Nat)
    (sn : Services) (iid : Nat) :
    ∀ (rules : List IndexSpecificRule) (l : List Nat) {c : Nat},
      c ∈ ruleCats f sn iid rules → c ∈ applyField f sn iid rules l := by
  intro rules
  induction rules with
  | nil =>
    intro l c hc
    exact absurd hc (by simp [ruleCats])
  | cons r rules ih =>
    intro l c hc
    rw [applyField_cons]
    obtain ⟨r', hr', hm, hf⟩ := mem_ruleCats.mp hc
    rcases List.mem_cons.mp hr' with rfl | hr'
    · apply mem_applyField_of_mem
      unfold applyFieldStep
      rw [if_pos hm, hf]
      exact self_mem_addCat c l
    · exact ih _ (mem_ruleCats.mpr ⟨r', hr', hm, hf⟩)

theorem applyField_fixed (f : IndexSpecificRule → Option Nat) (sn : Services)
    (iid : Nat) :
    ∀ (rules : List IndexSpecificRule) (l : List Nat),
      (∀ c ∈ ruleCats f sn iid rules, c ∈ l) →
      applyField f sn iid rules l = l := by
  intro rules
  induction rules with
  | nil => intro l _; rfl
  | cons r rules ih =>
    intro l hl
    rw [applyField_cons]
    have hstep : applyFieldStep f sn iid l r = l := by
      unfold applyFieldStep
      by_cases hm : ruleMatches sn iid r = true
      · rw [if_pos hm]
        cases hf : f r with
        | none => rfl
        | some c => exact addCat_of_mem (hl c (head_mem_ruleCats hm hf))
      · rw [if_neg hm]
    rw [hstep]
    exact ih l (fun c hc => hl c (ruleCats_subset_cons hc))

theorem applyField_idem (f : IndexSpecificRule → Option Nat) (sn : Services)
    (iid : Nat) (rules : List IndexSpecificRule) (l : List Nat) :
    applyField f sn iid rules (applyField f sn iid rules l) =
      applyField f sn iid rules l :=
  applyField_fixed f sn iid rules _
    (fun _ hc => ruleCats_mem_applyField f sn iid rules l hc)

/-- **C7**: applying the same override rules twice via
`indexerSpecificConfiguration` (with the same rule table, consumer and
indexer) yields the same pair of collections as applying them once: the
"not already present" guard makes repeated application idempotent, for every
base category collection and anime category collection. -/
theorem indexerSpecificConfiguration_idem (rules : List IndexSpecificRule)
    (sn : Services) (ix : JackettIndexer) (C A : List Nat) :
    indexerSpecificConfiguration rules sn ix
      (indexerSpecificConfiguration rules sn ix C A).1
      (indexerSpecificConfiguration rules sn ix C A).2 =
      indexerSpecificConfiguration rules sn ix C A := by
  rw [indexerSpecificConfiguration_eq_pair, indexerSpecificConfiguration_eq_pair]
  exact Prod.ext (applyField_idem _ sn ix.id rules C)
    (applyField_idem _ sn ix.id rules A)

/-! ## Claims C3 and C6: the equivalence check -/

theorem arrayEquals_iff {a b : List Nat} :
    arrayEquals a b = true ↔ ∀ x, x ∈ a ↔ x ∈ b := by
  simp only [arrayEquals, Bool.and_eq_true, List.all_eq_true]
  constructor
  · rintro ⟨h1, h2⟩ x
    constructor
    · intro hx; simpa using h1 x hx
    · intro hx; simpa using h2 x hx
  · intro h
    constructor
    · intro x hx; simpa using (h x).mp hx
    · intro x hx; simpa using (h x).mpr hx

theorem containsAllWantedCategories_iff (rules : List IndexSpecificRule)
    (svc : Service) (current : Indexer) (ix : JackettIndexer) :
    containsAllWantedCategories rules svc current ix = true ↔
      ∀ x, (x ∈ (undoIndexerSpecificConfiguration rules svc.serviceName ix
          current.categories []).1 ↔
        (x ∈ svc.categories ∧ x ∈ ix.categories)) := by
  simp only [containsAllWantedCategories]
  rw [arrayEquals_iff]
  constructor
  · intro h x
    rw [h x, List.mem_filter]
    simp
  · intro h x
    rw [List.mem_filter, h x]
    simp

/-- **C3**: `shouldUpdate` returns true iff the consumer-specific identity
comparison `cmp` (the `current.compare(indexer)` call, modelled as a
parameter because the per-consumer model classes are outside the provided
sources) reports a difference, or the existing record's categories after
override reversal are not set-equal to the expected categories, i.e. the
intersection of the consumer's wanted categories with the source indexer's
categories. -/
theorem shouldUpdate_iff (rules : List IndexSpecificRule)
    (cmp : Indexer → JackettIndexer → Bool) (svc : Service)
    (current : Indexer) (ix : JackettIndexer) :
    shouldUpdate rules cmp svc current ix = true ↔
      (cmp current ix = false ∨
        ¬ ∀ x, (x ∈ (undoIndexerSpecificConfiguration rules svc.serviceName ix
            current.categories []).1 ↔
          (x ∈ svc.categories ∧ x ∈ ix.categories))) := by
  simp only [shouldUpdate, Bool.or_eq_true, Bool.not_eq_true']
  apply or_congr Iff.rfl
  rw [← containsAllWantedCategories_iff rules svc current ix, Bool.eq_false_iff]

/-- **C6**: when the existing record's post-reversal categories contain
exactly the same elements as the expected categories (in any insertion
order) and the identity comparison matches, `shouldUpdate` reports no
update: category equality is order-independent. -/
theorem shouldUpdate_order_independent (rules : List IndexSpecificRule)
    (cmp : Indexer → JackettIndexer → Bool) (svc : Service)
    (current : Indexer) (ix : JackettIndexer)
    (hcmp : cmp current ix = true)
    (hsame : ∀ x, (x ∈ (undoIndexerSpecificConfiguration rules svc.serviceName ix
        current.categories []).1 ↔
      (x ∈ svc.categories ∧ x ∈ ix.categories))) :
    shouldUpdate rules cmp svc current ix = false := by
  unfold shouldUpdate
  rw [hcmp, (containsAllWantedCategories_iff rules svc current ix).mpr hsame]
  rfl

/-- Witness for `shouldUpdate_order_independent`: the existing record stores
`[3000, 2000]`, the expected categories are `[2000, 3000]` (same elements,
different insertion order), there are no rules, and the identity comparison
matches — no update is flagged. -/
theorem shouldUpdate_order_independent_witness :
    shouldUpdate [] (fun _ _ => true)
      { serviceName := Services.Sonarr, categories := [2000, 3000], indexers := [] }
      { id := some 1, appId := some 7, categories := [3000, 2000] }
      { id := 1, name := "a", categories := [2000, 3000, 7000] } = false :=
  shouldUpdate_order_independent [] (fun _ _ => true) _ _ _ rfl
    (by
      intro x
      simp only [undoIndexerSpecificConfiguration, List.foldl_nil]
      simp
      omega)

/-! ## Claim C9: the state effect of the equivalence check -/

theorem bool_eq_of_iff {a b : Bool} (h : a = true ↔ b = true) : a = b := by
  cases a <;> cases b <;> simp_all

theorem filter_not_contains_cons (c : Nat) (cats X : List Nat) :
    (X.filter (fun x => !(cats.contains x))).filter (fun x => x != c) =
      X.filter (fun x => !((c :: cats).contains x)) := by
  rw [List.filter_filter]
  apply List.filter_congr
  intro x _
  by_cases hc : x = c <;> by_cases hs : x ∈ cats <;>
    simp [List.contains_cons, hc, hs]

theorem undoField_nodup_eq_filter (f : IndexSpecificRule → Option Nat)
    (sn : Services) (iid : Nat) :
    ∀ (rules : List IndexSpecificRule) (X : List Nat), X.Nodup →
      undoField f sn iid rules X =
        X.filter (fun c => !((ruleCats f sn iid rules).contains c)) := by
  intro rules
  induction rules with
  | nil =>
    intro X _
    simp [undoField_nil, ruleCats]
  | cons r rules ih =>
    intro X hnd
    rw [undoField_cons]
    by_cases hm : ruleMatches sn iid r = true
    · cases hf : f r with
      | none =>
        have hcats : ruleCats f sn iid (r :: rules) = ruleCats f sn iid rules := by
          simp [ruleCats, List.filterMap_cons, hm, hf]
        have hstep : undoFieldStep f sn iid X r = X := by
          unfold undoFieldStep
          rw [if_pos hm, hf]
        rw [hstep, ih X hnd, hcats]
      | some c =>
        have hcats : ruleCats f sn iid (r :: rules) = c :: ruleCats f sn iid rules := by
          simp [ruleCats, List.filterMap_cons, hm, hf]
        have hstep : undoFieldStep f sn iid X r = X.erase c := by
          unfold undoFieldStep
          rw [if_pos hm, hf]
          exact removeCat_eq_erase c X
        rw [hstep, ih (X.erase c) (hnd.erase c), hcats, hnd.erase_eq_filter,
          List.filter_comm, filter_not_contains_cons]
    · have hcats : ruleCats f sn iid (r :: rules) = ruleCats f sn iid rules := by
        simp [ruleCats, List.filterMap_cons, hm]
      have hstep : undoFieldStep f sn iid X r = X := by
        unfold undoFieldStep
        rw [if_neg hm]
      rw [hstep, ih X hnd, hcats]

theorem ruleCats_contains_eq_any (f : IndexSpecificRule → Option Nat)
    (sn : Services) (iid : Nat) (rules : List IndexSpecificRule) (c : Nat) :
    (ruleCats f sn iid rules).contains c =
      rules.any (fun r => ruleMatches sn iid r && f r == some c) := by
  apply bool_eq_of_iff
  constructor
  · intro h
    obtain ⟨r, hr, hm, hf⟩ := mem_ruleCats.mp (by simpa using h)
    rw [List.any_eq_true]
    exact ⟨r, hr, by simp [hm, hf]⟩
  · intro h
    obtain ⟨r, hr, hrf⟩ := List.any_eq_true.mp h
    rw [Bool.and_eq_true] at hrf
    have : c ∈ ruleCats f sn iid rules :=
      mem_ruleCats.mpr ⟨r, hr, hrf.1, by simpa using hrf.2⟩
    simpa using this

/-- **C9 (counterexample)**: evaluating the equivalence check does not remove
anime-categories named by a matching rule from the stored categories array.
With the rule `{service: ALL, indexerId: 1, animeCategory: 3000}` and an
existing record storing `[3000]`, the check passes a fresh empty array as the
anime collection (`undoIndexerSpecificConfiguration(indexer,
current.categories, [])`), so the stored array — which contains the very
value named as anime-category by the matching rule — is left completely
unchanged by the check. -/
theorem check_does_not_remove_anime_from_stored :
    ((containsAllWantedCategoriesRun
      [{ service := Services.ALL, indexerId := 1, category := none,
         animeCategory := some 3000 }]
      { serviceName := Services.Sonarr, categories := [3000], indexers := [] }
      { id := some 1, appId := some 7, categories := [3000] }
      { id := 1, name := "ix", categories := [3000] }).2).categories =
      [3000] := by
  decide

/-- **C9 (amended)**: evaluating the equivalence check rewrites the existing
record's stored categories in place: afterwards they equal the original list
with every category named by the `category` field of a matching override rule
removed (anime-category clauses act on the fresh empty array passed as third
argument and never alter the stored array); when a matching rule's category
is present in the stored list, the consumer's in-memory state is not left
unchanged by the check. Stated for duplicate-free stored lists, matching the
set semantics of category collections. -/
theorem check_mutates_categories (rules : List IndexSpecificRule)
    (svc : Service) (current : Indexer) (ix : JackettIndexer)
    (hnd : current.categories.Nodup)
    (hhit : ∃ c ∈ current.categories, ∃ r ∈ rules,
      ruleMatches svc.serviceName ix.id r = true ∧ r.category = some c) :
    ((containsAllWantedCategoriesRun rules svc current ix).2).categories =
      current.categories.filter (fun c =>
        !(rules.any (fun r =>
          ruleMatches svc.serviceName ix.id r && r.category == some c))) ∧
    ((containsAllWantedCategoriesRun rules svc current ix).2).categories ≠
      current.categories := by
  have hrun : ((containsAllWantedCategoriesRun rules svc current ix).2).categories =
      undoField (fun r => r.category) svc.serviceName ix.id rules
        current.categories := by
    simp only [containsAllWantedCategoriesRun,
      undoIndexerSpecificConfiguration_eq_pair]
  have hfilter : ((containsAllWantedCategoriesRun rules svc current ix).2).categories =
      current.categories.filter (fun c =>
        !(rules.any (fun r =>
          ruleMatches svc.serviceName ix.id r && r.category == some c))) := by
    rw [hrun, undoField_nodup_eq_filter _ _ _ rules current.categories hnd]
    apply List.filter_congr
    intro x _
    rw [ruleCats_contains_eq_any]
  refine ⟨hfilter, ?_⟩
  obtain ⟨c, hcin, r, hr, hm, hf⟩ := hhit
  intro habs
  rw [hfilter] at habs
  have hcfilter : c ∈ current.categories.filter (fun c =>
      !(rules.any (fun r =>
        ruleMatches svc.serviceName ix.id r && r.category == some c))) := by
    rw [habs]; exact hcin
  have hpred := List.of_mem_filter hcfilter
  have : rules.any (fun r =>
      ruleMatches svc.serviceName ix.id r && r.category == some c) = true :=
    List.any_eq_true.mpr ⟨r, hr, by simp [hm, hf]⟩
  rw [this] at hpred
  exact absurd hpred (by simp)

/-- Witness for `check_mutates_categories`: with the rule
`{service: ALL, indexerId: 1, category: 5030}` and an existing record storing
`[2000, 5030]`, the check leaves the stored array equal to `[2000]`. -/
theorem check_mutates_categories_witness :
    ((containsAllWantedCategoriesRun
      [{ service := Services.ALL, indexerId := 1, category := some 5030,
         animeCategory := none }]
      { serviceName := Services.Sonarr, categories := [2000], indexers := [] }
      { id := some 1, appId := some 7, categories := [2000, 5030] }
      { id := 1, name := "ix", categories := [2000] }).2).categories =
      [2000, 5030].filter (fun c =>
        !([{ service := Services.ALL, indexerId := 1, category := some 5030,
             animeCategory := none }].any (fun r =>
          ruleMatches Services.Sonarr 1 r && r.category == some c))) ∧
    ((containsAllWantedCategoriesRun
      [{ service := Services.ALL, indexerId := 1, category := some 5030,
         animeCategory := none }]
      { serviceName := Services.Sonarr, categories := [2000], indexers := [] }
      { id := some 1, appId := some 7, categories := [2000, 5030] }
      { id := 1, name := "ix", categories := [2000] }).2).categories ≠
      [2000, 5030] :=
  check_mutates_categories _ _ _ _ (by decide) (by decide)

/-! ## The diff: characterizing checkDifferences -/

theorem filterMap_if_eq_filter {α : Type} (p : α → Bool) :
    ∀ l : List α,
      l.filterMap (fun x => if p x then some x else none) = l.filter p := by
  intro l
  induction l with
  | nil => rfl
  | cons a l ih =>
    by_cases h : p a = true <;>
      simp [List.filterMap_cons, List.filter_cons, h, ih]

theorem find?_id_self :
    ∀ (l : List JackettIndexer), (l.map (fun el => el.id)).Nodup →
      ∀ {x : JackettIndexer}, x ∈ l →
        l.find? (fun indexer => indexer.id == x.id) = some x := by
  intro l
  induction l with
  | nil => intro _ x hx; exact absurd hx (List.not_mem_nil x)
  | cons y t ih =>
    intro hnd x hx
    rw [List.map_cons] at hnd
    by_cases hyx : (y.id == x.id) = true
    · rw [List.find?_cons_of_pos (p := fun indexer => indexer.id == x.id) t hyx]
      rcases List.mem_cons.mp hx with rfl | hxt
      · rfl
      · exfalso
        have hid : y.id = x.id := by simpa using hyx
        have : x.id ∈ t.map (fun el => el.id) := List.mem_map_of_mem _ hxt
        rw [← hid] at this
        exact (List.nodup_cons.mp hnd).1 this
    · rw [List.find?_cons_of_neg (p := fun indexer => indexer.id == x.id) t hyx]
      rcases List.mem_cons.mp hx with rfl | hxt
      · exact absurd (by simp) hyx
      · exact ih (List.nodup_cons.mp hnd).2 hxt

theorem checkDifferences_add_eq (rules : List IndexSpecificRule)
    (cmp : Indexer → JackettIndexer → Bool) (svc : Service)
    (l : List JackettIndexer) (hnd : (l.map (fun el => el.id)).Nodup) :
    (checkDifferences rules cmp svc l).add =
      l.filter (fun ix =>
        shouldAdd rules svc ix &&
        !((svc.indexers.filterMap (fun indexer => indexer.id)).contains ix.id)) := by
  simp only [checkDifferences]
  rw [List.filter_map, List.filterMap_map]
  rw [List.filterMap_congr (g := fun ix =>
    if shouldAdd rules svc ix then some ix else none) ?_]
  · rw [filterMap_if_eq_filter, List.filter_filter]
    apply List.filter_congr
    intro x _
    rfl
  · intro x hx
    have hxl : x ∈ l := List.mem_of_mem_filter hx
    simp only [Function.comp]
    rw [find?_id_self l hnd hxl, Option.some_bind]

theorem checkDifferences_update_eq (rules : List IndexSpecificRule)
    (cmp : Indexer → JackettIndexer → Bool) (svc : Service)
    (l : List JackettIndexer) (hnd : (l.map (fun el => el.id)).Nodup) :
    (checkDifferences rules cmp svc l).update =
      l.filter (fun ix =>
        updateDecision rules cmp svc ix &&
        (svc.indexers.filterMap (fun indexer => indexer.id)).contains ix.id) := by
  simp only [checkDifferences]
  rw [List.filter_map, List.filterMap_map]
  rw [List.filterMap_congr (g := fun ix =>
    if updateDecision rules cmp svc ix then some ix else none) ?_]
  · rw [filterMap_if_eq_filter, List.filter_filter]
    apply List.filter_congr
    intro x _
    rfl
  · intro x hx
    have hxl : x ∈ l := List.mem_of_mem_filter hx
    simp only [Function.comp]
    rw [find?_id_self l hnd hxl, Option.some_bind]
    unfold updateDecision
    cases hfind : svc.indexers.find? (fun indexer => indexer.id == some x.id) with
    | none => rfl
    | some ex => rfl

theorem mem_add_decomp (rules : List IndexSpecificRule)
    (cmp : Indexer → JackettIndexer → Bool) (svc : Service)
    (l : List JackettIndexer) {jx : JackettIndexer}
    (h : jx ∈ (checkDifferences rules cmp svc l).add) :
    jx ∈ l ∧ jx.id ∈ l.map (fun el => el.id) ∧ shouldAdd rules svc jx = true := by
  simp only [checkDifferences] at h
  obtain ⟨iid, hiid, hbind⟩ := List.mem_filterMap.mp h
  obtain ⟨jx0, hfind, hif⟩ := Option.bind_eq_some.mp hbind
  have hjx : jx0 = jx := by
    by_cases hsa : shouldAdd rules svc jx0 = true
    · rw [if_pos hsa] at hif
      exact Option.some.inj hif
    · rw [if_neg hsa] at hif
      exact absurd hif (by simp)
  subst hjx
  have hmem : jx0 ∈ l := List.mem_of_find?_eq_some hfind
  have hid : jx0.id = iid := by simpa using List.find?_some hfind
  have hsa : shouldAdd rules svc jx0 = true := by
    by_cases hsa : shouldAdd rules svc jx0 = true
    · exact hsa
    · rw [if_neg hsa] at hif
      exact absurd hif (by simp)
  refine ⟨hmem, ?_, hsa⟩
  rw [hid]
  exact List.mem_of_mem_filter hiid

theorem mem_update_decomp (rules : List IndexSpecificRule)
    (cmp : Indexer → JackettIndexer → Bool) (svc : Service)
    (l : List JackettIndexer) {jx : JackettIndexer}
    (h : jx ∈ (checkDifferences rules cmp svc l).update) :
    jx ∈ l ∧ jx.id ∈ l.map (fun el => el.id) ∧
      ∃ existingIndexer,
        svc.indexers.find? (fun indexer => indexer.id == some jx.id) =
          some existingIndexer ∧
        shouldUpdate rules cmp svc existingIndexer jx = true := by
  simp only [checkDifferences] at h
  obtain ⟨iid, hiid, hbind⟩ := List.mem_filterMap.mp h
  obtain ⟨jx0, hfind, hbind2⟩ := Option.bind_eq_some.mp hbind
  obtain ⟨ex, hfindex, hif⟩ := Option.bind_eq_some.mp hbind2
  have hjx : jx0 = jx := by
    by_cases hsu : shouldUpdate rules cmp svc ex jx0 = true
    · rw [if_pos hsu] at hif
      exact Option.some.inj hif
    · rw [if_neg hsu] at hif
      exact absurd hif (by simp)
  subst hjx
  have hsu : shouldUpdate rules cmp svc ex jx0 = true := by
    by_cases hsu : shouldUpdate rules cmp svc ex jx0 = true
    · exact hsu
    · rw [if_neg hsu] at hif
      exact absurd hif (by simp)
  have hmem : jx0 ∈ l := List.mem_of_find?_eq_some hfind
  have hid : jx0.id = iid := by simpa using List.find?_some hfind
  subst hid
  exact ⟨hmem, List.mem_of_mem_filter hiid, ex, hfindex, hsu⟩

/-! ## Claim C2: content of the add and update lists -/

/-- **C2**: for a source catalog with unique ids (the data-model invariant
"uniquely identified by `id` within one fetch"), `checkDifferences` returns
as `add` exactly the source indexers whose id is absent from the consumer's
current (non-empty) indexer ids and for which `shouldAdd` holds, and as
`update` exactly the source indexers whose id is present and for which
`shouldUpdate` holds against the matching existing record
(`updateDecision`), both in source-catalog order. -/
theorem checkDifferences_spec (rules : List IndexSpecificRule)
    (cmp : Indexer → JackettIndexer → Bool) (svc : Service)
    (l : List JackettIndexer) (hnd : (l.map (fun el => el.id)).Nodup) :
    (checkDifferences rules cmp svc l).add =
      l.filter (fun ix =>
        shouldAdd rules svc ix &&
        !((svc.indexers.filterMap (fun indexer => indexer.id)).contains ix.id)) ∧
    (checkDifferences rules cmp svc l).update =
      l.filter (fun ix =>
        updateDecision rules cmp svc ix &&
        (svc.indexers.filterMap (fun indexer => indexer.id)).contains ix.id) :=
  ⟨checkDifferences_add_eq rules cmp svc l hnd,
   checkDifferences_update_eq rules cmp svc l hnd⟩

/-- Witness for `checkDifferences_spec`: a three-indexer catalog against a
consumer holding only id 2 with an always-different identity comparison:
id 1 (wanted) is added, id 3 (unwanted, no rule) is skipped, id 2 is updated. -/
theorem checkDifferences_spec_witness :
    ((exCatalog.map (fun el => el.id)).Nodup) ∧
    ((checkDifferences [] cmpFalse exService exCatalog).add =
      exCatalog.filter (fun ix =>
        shouldAdd [] exService ix &&
        !((exService.indexers.filterMap (fun indexer => indexer.id)).contains ix.id)) ∧
     (checkDifferences [] cmpFalse exService exCatalog).update =
      exCatalog.filter (fun ix =>
        updateDecision [] cmpFalse exService ix &&
        (exService.indexers.filterMap (fun indexer => indexer.id)).contains ix.id)) :=
  ⟨by decide, checkDifferences_spec [] cmpFalse exService exCatalog (by decide)⟩

/-! ## Claim C4: the inclusion policy -/

/-- **C4**: `shouldAdd` holds iff the indexer's categories intersect the
consumer's wanted categories, or some override rule selected for `ALL` or
this consumer names the indexer's id; and a source indexer absent from the
consumer with zero category overlap but matched by such a rule lands in the
add list of `checkDifferences`. -/
theorem shouldAdd_spec (rules : List IndexSpecificRule) (svc : Service)
    (ix : JackettIndexer) (cmp : Indexer → JackettIndexer → Bool)
    (l : List JackettIndexer) (hnd : (l.map (fun el => el.id)).Nodup)
    (hmem : ix ∈ l)
    (habs : ix.id ∉ svc.indexers.filterMap (fun indexer => indexer.id)) :
    (shouldAdd rules svc ix = true ↔
      ((∃ c ∈ ix.categories, c ∈ svc.categories) ∨
        ∃ r ∈ rules, (r.service = Services.ALL ∨ r.service = svc.serviceName) ∧
          r.indexerId = ix.id)) ∧
    ((∃ r ∈ rules, (r.service = Services.ALL ∨ r.service = svc.serviceName) ∧
        r.indexerId = ix.id) →
      ix ∈ (checkDifferences rules cmp svc l).add) := by
  have hiff : shouldAdd rules svc ix = true ↔
      ((∃ c ∈ ix.categories, c ∈ svc.categories) ∨
        ∃ r ∈ rules, (r.service = Services.ALL ∨ r.service = svc.serviceName) ∧
          r.indexerId = ix.id) := by
    simp only [shouldAdd, doesIndexerSpecificRuleApply, ruleMatches,
      Bool.or_eq_true, List.any_eq_true, Bool.and_eq_true, beq_iff_eq]
    constructor
    · rintro (⟨c, hc, hcs⟩ | ⟨r, hr, hsel, hid⟩)
      · exact Or.inl ⟨c, hc, by simpa using hcs⟩
      · exact Or.inr ⟨r, hr, by simpa using hsel, hid.symm⟩
    · rintro (⟨c, hc, hcs⟩ | ⟨r, hr, hsel, hid⟩)
      · exact Or.inl ⟨c, hc, by simpa using hcs⟩
      · exact Or.inr ⟨r, hr, by simpa using hsel, hid.symm⟩
  refine ⟨hiff, fun hrule => ?_⟩
  rw [checkDifferences_add_eq rules cmp svc l hnd]
  refine List.mem_filter.mpr ⟨hmem, ?_⟩
  rw [hiff.mpr (Or.inr hrule)]
  simpa using habs

/-- Witness for `shouldAdd_spec`: indexer 1 has categories `[9999]` with zero
overlap with the consumer's wanted `[2000]`, the consumer holds no indexers,
and the rule `{service: ALL, indexerId: 1, category: 5030}` matches — the
characterization holds and indexer 1 is in the add list. -/
theorem shouldAdd_spec_witness :
    (shouldAdd [ruleAll5030] svcNoIndexers ixNoOverlap = true ↔
      ((∃ c ∈ ixNoOverlap.categories, c ∈ svcNoIndexers.categories) ∨
        ∃ r ∈ [ruleAll5030],
          (r.service = Services.ALL ∨ r.service = svcNoIndexers.serviceName) ∧
          r.indexerId = ixNoOverlap.id)) ∧
    ((∃ r ∈ [ruleAll5030],
        (r.service = Services.ALL ∨ r.service = svcNoIndexers.serviceName) ∧
        r.indexerId = ixNoOverlap.id) →
      ixNoOverlap ∈
        (checkDifferences [ruleAll5030] cmpFalse svcNoIndexers [ixNoOverlap]).add) :=
  shouldAdd_spec [ruleAll5030] svcNoIndexers ixNoOverlap cmpFalse [ixNoOverlap]
    (by decide) (by decide) (by decide)

/-! ## Claim C5: orphan safety -/

/-- **C5**: a consumer indexer id absent from the source catalog never
appears among the ids of the add list or the update list of
`checkDifferences` — no create or update is issued for it — and it is
reported in the orphan (`notInJackett`) list. -/
theorem orphan_never_mutated (rules : List IndexSpecificRule)
    (cmp : Indexer → JackettIndexer → Bool) (svc : Service)
    (l : List JackettIndexer) (iid : Nat)
    (hcons : iid ∈ svc.indexers.filterMap (fun indexer => indexer.id))
    (habs : iid ∉ l.map (fun el => el.id)) :
    (∀ jx ∈ (checkDifferences rules cmp svc l).add, jx.id ≠ iid) ∧
    (∀ jx ∈ (checkDifferences rules cmp svc l).update, jx.id ≠ iid) ∧
    iid ∈ (checkDifferences rules cmp svc l).notInJackett := by
  refine ⟨?_, ?_, ?_⟩
  · intro jx hjx heq
    have hx := (mem_add_decomp rules cmp svc l hjx).2.1
    rw [heq] at hx
    exact habs hx
  · intro jx hjx heq
    have hx := (mem_update_decomp rules cmp svc l hjx).2.1
    rw [heq] at hx
    exact habs hx
  · simp only [checkDifferences]
    refine List.mem_filter.mpr ⟨hcons, ?_⟩
    simpa using habs

/-- Witness for `orphan_never_mutated`: the consumer holds id 5 which the
one-element source catalog (id 1) lacks; id 5 is in no mutation list and is
reported as an orphan. -/
theorem orphan_never_mutated_witness :
    (∀ jx ∈ (checkDifferences [] cmpFalse svcOrphan catalogOne).add,
      jx.id ≠ 5) ∧
    (∀ jx ∈ (checkDifferences [] cmpFalse svcOrphan catalogOne).update,
      jx.id ≠ 5) ∧
    (5 : Nat) ∈ (checkDifferences [] cmpFalse svcOrphan catalogOne).notInJackett :=
  orphan_never_mutated [] cmpFalse svcOrphan catalogOne 5 (by decide) (by decide)

/-! ## Claim C10: the update lookup in sync always succeeds -/

/-- **C10**: every indexer in the update list of `checkDifferences` has a
matching record (same id) in the consumer's fetched indexer list, so the
`find(...)!.appId` lookup in `sync` (embedded as `syncUpdateLookup`) returns
`some` existing record. -/
theorem sync_update_lookup_succeeds (rules : List IndexSpecificRule)
    (cmp : Indexer → JackettIndexer → Bool) (svc : Service)
    (l : List JackettIndexer) (jx : JackettIndexer)
    (h : jx ∈ (checkDifferences rules cmp svc l).update) :
    (syncUpdateLookup svc jx).isSome = true := by
  obtain ⟨-, -, ex, hfind, -⟩ := mem_update_decomp rules cmp svc l h
  unfold syncUpdateLookup
  rw [hfind]
  rfl

/-- Witness for `sync_update_lookup_succeeds`: the consumer holds id 1 with
appId 7; with an always-different identity comparison, source indexer 1 is
in the update list and the lookup succeeds. -/
theorem sync_update_lookup_succeeds_witness :
    ixOne ∈ (checkDifferences [] cmpFalse svcApp7 [ixOne]).update ∧
    (syncUpdateLookup svcApp7 ixOne).isSome = true :=
  ⟨by decide,
   sync_update_lookup_succeeds [] cmpFalse svcApp7 [ixOne] ixOne (by decide)⟩

/-! ## Claim C8: failure isolation and the fatal source fetch -/

theorem syncConsumer_of_syncResult_error (v : Except String String)
    (g : Except String (List Indexer)) (e : String) :
    syncConsumer v g (Except.error e) = false := by
  cases v <;> cases g <;> rfl

/-- **C8**: (i) a failed source-catalog fetch makes `start` exit fatally,
before any consumer outcome is produced; (ii) with a fetched catalog, a
consumer whose own `sync` step fails yields a logged `false` outcome while
every sibling consumer's outcome is exactly what it would be on its own
inputs — the failing consumer removes or changes nothing around it; and
(iii) within one consumer's request batch, an entry that fails is mapped by
`handleRequest` to a logged `false` while all sibling entries keep their own
outcomes — no fail-fast at the batch level. -/
theorem failure_isolation :
    (∀ (e : String) (runs : List ConsumerRun),
      start (Except.error e) runs = RunOutcome.fatalExit) ∧
    (∀ (cat : List JackettIndexer) (runs₁ runs₂ : List ConsumerRun)
        (v : Except String String) (g : Except String (List Indexer)) (e : String),
      start (Except.ok cat) (runs₁ ++ ⟨v, g, Except.error e⟩ :: runs₂) =
        RunOutcome.completed
          ((runs₁.map (fun r =>
              syncConsumer r.validateResult r.getIndexersResult r.syncResult)) ++
            false :: (runs₂.map (fun r =>
              syncConsumer r.validateResult r.getIndexersResult r.syncResult)))) ∧
    (∀ (rs₁ rs₂ : List (Except String String)) (e : String),
      (rs₁ ++ Except.error e :: rs₂).map handleRequest =
        rs₁.map handleRequest ++ false :: rs₂.map handleRequest) := by
  refine ⟨fun e runs => rfl, ?_, ?_⟩
  · intro cat runs₁ runs₂ v g e
    simp [start, syncConsumer_of_syncResult_error]
  · intro rs₁ rs₂ e
    simp [handleRequest]

end JackettSync
